import Mathlib

/-!
Verification of the menpo landmark import module
(`menpo/io/input/landmark.py`), shallowly embedded in Lean 4.

Conventions of the embedding:
* Python strings are Lean `String`s, processed through their `List Char`
  data so every helper is structurally recursive and kernel-computable.
* Python `float` values are modelled as `ℚ`; the IEEE not-a-number
  sentinel produced for missing LJSON coordinates is modelled as `none`
  in `Option ℚ` (a finite coordinate is `some q`).
* Python exceptions are modelled with `Except`: any raised exception
  (`ValueError`, `TypeError`, `IndexError`, ...) aborts the parse, so the
  parsers return `Except Unit _` (or `Except LJErr _` where the error
  message itself matters).
* NumPy arrays are modelled as lists; `np.vstack` of an empty list and
  `reshape` with incompatible sizes are errors, as in NumPy.
-/

/-! ## Python string primitives -/

/-- Characters treated as whitespace by Python `str.split()` / `str.strip()`. -/
def isPySpace (c : Char) : Bool :=
  c = ' ' ∨ c = '\t' ∨ c = '\n' ∨ c = '\r' ∨ c = '\x0b' ∨ c = '\x0c'

/-- Helper for `pySplit`: accumulates the current token (reversed). -/
def splitWsAux : List Char → List Char → List String
  | [], acc => if acc.isEmpty then [] else [String.mk acc.reverse]
  | c :: cs, acc =>
    if isPySpace c then
      if acc.isEmpty then splitWsAux cs []
      else String.mk acc.reverse :: splitWsAux cs []
    else splitWsAux cs (c :: acc)

/-- Python `str.split()` with no argument: runs of whitespace separate tokens,
leading/trailing whitespace produces no empty tokens. -/
def pySplit (s : String) : List String := splitWsAux s.data []

/-- Helper for `pyLines`: splits on `\n`, `\r\n` and `\r`. -/
def pyLinesAux : List Char → List Char → List String
  | [], acc => if acc.isEmpty then [] else [String.mk acc.reverse]
  | '\r' :: '\n' :: cs, acc => String.mk acc.reverse :: pyLinesAux cs []
  | '\n' :: cs, acc => String.mk acc.reverse :: pyLinesAux cs []
  | '\r' :: cs, acc => String.mk acc.reverse :: pyLinesAux cs []
  | c :: cs, acc => pyLinesAux cs (c :: acc)

/-- Python `str.splitlines()` (restricted to the `\n`, `\r\n`, `\r`
terminators): no trailing empty line for a terminator-final string. -/
def pyLines (s : String) : List String := pyLinesAux s.data []

/-- Python `str.strip()` on a character list. -/
def pyStrip (cs : List Char) : List Char :=
  ((cs.dropWhile isPySpace).reverse.dropWhile isPySpace).reverse

/-- Decimal value of a list of digit characters. -/
def natVal (ds : List Char) : Nat :=
  ds.foldl (fun a c => a * 10 + (c.toNat - 48)) 0

/-- Parse a nonempty all-digit character list. -/
def digitsToNat (ds : List Char) : Option Nat :=
  if ds.isEmpty then none
  else if ds.all Char.isDigit then some (natVal ds) else none

/-- Python `int(s)`: optional sign, digits, surrounding whitespace allowed
(the embedding accepts a subset of the literals CPython accepts; every
string it accepts is accepted by CPython with the same value). -/
def pyInt (s : String) : Option Int :=
  match pyStrip s.data with
  | '+' :: ds => (digitsToNat ds).map (fun n => (n : Int))
  | '-' :: ds => (digitsToNat ds).map (fun n => -(n : Int))
  | ds => (digitsToNat ds).map (fun n => (n : Int))

/-- `10 ^ n` as a rational. -/
def pow10 (n : Nat) : ℚ := ((10 ^ n : Nat) : ℚ)

/-- Optional exponent suffix of a Python float literal; `cs` must be the
whole remainder of the literal. -/
def parseExpPart (mant : ℚ) (cs : List Char) : Option ℚ :=
  match cs with
  | [] => some mant
  | c :: rest =>
    if c = 'e' ∨ c = 'E' then
      let p : Bool × List Char :=
        match rest with
        | '+' :: r => (false, r)
        | '-' :: r => (true, r)
        | r => (false, r)
      let ds := p.2.takeWhile Char.isDigit
      let rem := p.2.dropWhile Char.isDigit
      if ds.isEmpty ∨ ¬ rem.isEmpty then none
      else if p.1 then some (mant / pow10 (natVal ds))
      else some (mant * pow10 (natVal ds))
    else none

/-- Python `float(s)` for finite decimal literals, valued in `ℚ`
(a subset of CPython's grammar: sign, digits with optional fraction,
optional exponent; every accepted literal denotes the same real number). -/
def pyFloat (s : String) : Option ℚ :=
  let cs := pyStrip s.data
  let p : Bool × List Char :=
    match cs with
    | '+' :: r => (false, r)
    | '-' :: r => (true, r)
    | r => (false, r)
  let ip := p.2.takeWhile Char.isDigit
  let r1 := p.2.dropWhile Char.isDigit
  let core : Option ℚ :=
    match r1 with
    | '.' :: r2 =>
      let fp := r2.takeWhile Char.isDigit
      let r3 := r2.dropWhile Char.isDigit
      if ip.isEmpty ∧ fp.isEmpty then none
      else parseExpPart ((natVal (ip ++ fp) : ℚ) / pow10 fp.length) r3
    | _ =>
      if ip.isEmpty then none
      else parseExpPart (natVal ip : ℚ) r1
  match core with
  | none => none
  | some q => some (if p.1 then -q else q)

/-- `int()` raising `ValueError` on failure. -/
def pyIntE (s : String) : Except Unit Int :=
  match pyInt s with
  | none => Except.error ()
  | some v => Except.ok v

/-- `float()` raising `ValueError` on failure. -/
def pyFloatE (s : String) : Except Unit ℚ :=
  match pyFloat s with
  | none => Except.error ()
  | some v => Except.ok v

deriving instance DecidableEq for Except

/-- Effectful map over a list in the `Except Unit` monad, written with
explicit matches so proofs can invert it step by step. -/
def emapM {α β : Type} (f : α → Except Unit β) : List α → Except Unit (List β)
  | [] => Except.ok []
  | a :: as =>
    match f a with
    | Except.error e => Except.error e
    | Except.ok b =>
      match emapM f as with
      | Except.error e => Except.error e
      | Except.ok bs => Except.ok (b :: bs)

/-! ## ASF importer (`ASFImporter._parse_format`) -/

/-- The first seven whitespace-separated fields of an ASF record line
(the `ASFPath` namedtuple of the source; all fields kept as strings). -/
structure ASFRecord where
  path_num : String
  path_type : String
  xpos : String
  ypos : String
  point_num : String
  connects_from : String
  connects_to : String
deriving DecidableEq

/-- Line filter of the ASF (and LM2) importer: drop lines that are blank
after `rstrip()` or contain a `#` anywhere. -/
def keepLine (l : String) : Bool :=
  l.data.any (fun c => !(isPySpace c)) && !(l.data.contains '#')

/-- Declared-count line, trailing image-name line, and the `count` raw
record lines of an ASF file, mirroring the pops and the
`np.empty([count, 1])` allocation (which raises for a negative count)
and the `landmarks[i].split()[:7]` unpacking (which raises for a record
line with fewer than 7 tokens). -/
structure ASFRaw where
  count : Nat
  records : List ASFRecord
deriving DecidableEq

/-- Split one ASF record line into its first seven fields. -/
def asfRecordOfLine (l : String) : Except Unit ASFRecord :=
  match pySplit l with
  | a :: b :: c :: d :: e :: f :: g :: _ => Except.ok ⟨a, b, c, d, e, f, g⟩
  | _ => Except.error ()

/-- Tokenizing stage of `ASFImporter._parse_format`: comment/blank
filtering, the `int(landmarks.pop(0))` count, the `landmarks.pop()`
image name, and the `count` record lines. -/
def asfParseRaw (text : String) : Except Unit ASFRaw :=
  match (pyLines text).filter keepLine with
  | [] => Except.error ()
  | countLine :: rest =>
    match pyInt countLine with
    | none => Except.error ()
    | some n =>
      if rest.isEmpty then Except.error ()
      else if n < 0 then Except.error ()
      else if rest.dropLast.length < n.toNat then Except.error ()
      else
        match emapM asfRecordOfLine (rest.dropLast.take n.toNat) with
        | Except.error e => Except.error e
        | Except.ok records => Except.ok ⟨n.toNat, records⟩

/-- A record is an isolated point when `connects_from == connects_to ==
point_num` (string comparison, as in the source). -/
def isolatedRec (r : ASFRecord) : Bool :=
  decide (r.connects_from = r.connects_to ∧ r.connects_to = r.point_num)

/-- Helper for `groupByRuns`. -/
def gbAux (curKey : String) (cur : List ASFRecord) :
    List ASFRecord → List (List ASFRecord)
  | [] => [cur]
  | r :: rest =>
    if r.path_num = curKey then gbAux curKey (cur ++ [r]) rest
    else cur :: gbAux r.path_num [r] rest

/-- `itertools.groupby` keyed on `path_num`: consecutive runs of records
with the same `path_num` form one path; equal keys that are not adjacent
give separate paths. -/
def groupByRuns : List ASFRecord → List (List ASFRecord)
  | [] => []
  | r :: rest => gbAux r.path_num [r] rest

/-- `(float(vertex.xpos), float(vertex.ypos))`, stored `(y, x)` since the
output row is `[ys, xs]`. -/
def recCoord (r : ASFRecord) : Except Unit (ℚ × ℚ) :=
  match pyFloat r.xpos with
  | none => Except.error ()
  | some x =>
    match pyFloat r.ypos with
    | none => Except.error ()
    | some y => Except.ok (y, x)

/-- Edge `(int(point_num), int(connects_to))` of one non-isolated record. -/
def vertexEdge (r : ASFRecord) : Except Unit (Int × Int) :=
  match pyInt r.point_num with
  | none => Except.error ()
  | some a =>
    match pyInt r.connects_to with
    | none => Except.error ()
    | some b => Except.ok (a, b)

/-- The loop-closing step after one path's records: when the path's
`path_type` is `"0"` (closed), append the edge
`(int(path[-1].point_num), int(path[0].point_num))`. -/
def pathClose (first last : ASFRecord) (base : List (Int × Int)) :
    Except Unit (List (Int × Int)) :=
  if first.path_type = "0" then
    match pyInt last.point_num with
    | none => Except.error ()
    | some a =>
      match pyInt first.point_num with
      | none => Except.error ()
      | some b => Except.ok (base ++ [(a, b)])
  else Except.ok base

/-- Edges contributed by one path: one edge per non-isolated record, and
the loop-closing edge of `pathClose` (`groupby` never yields an empty
path; an empty path contributes no edges). -/
def pathEdges (path : List ASFRecord) : Except Unit (List (Int × Int)) :=
  match emapM vertexEdge (path.filter (fun r => !(isolatedRec r))) with
  | Except.error e => Except.error e
  | Except.ok base =>
    match path.head?, path.getLast? with
    | some first, some last => pathClose first last base
    | _, _ => Except.ok base

/-- The triple an ASF parse hands to `LandmarkGroup.init_from_edges`:
point rows `[y, x]`, the stacked connectivity, and the label masks. -/
structure ASFResult where
  points : List (List ℚ)
  edges : List (Int × Int)
  labels : List (String × List Bool)
deriving DecidableEq

/-- The optional `Scale(np.array(asset.shape)).apply(points)` step: with
an asset, multiply the first (`y`) coordinate by the first shape entry and
the second (`x`) coordinate by the second; point rows are `[y, x]`. -/
def asfScale (asset : Option (ℚ × ℚ)) (pts : List (ℚ × ℚ)) : List (List ℚ) :=
  match asset with
  | none => pts.map (fun p => [p.1, p.2])
  | some s => pts.map (fun p => [p.1 * s.1, p.2 * s.2])

/-- Assembly stage of `ASFImporter._parse_format`: group records into
paths, read the `(y, x)` coordinates in record order, collect the edges,
`np.vstack` them (an error when no edge was emitted), optionally rescale
by the asset shape, and attach the all-true `"all"` label. -/
def asfAssemble (asset : Option (ℚ × ℚ)) (raw : ASFRaw) : Except Unit ASFResult :=
  match emapM recCoord (groupByRuns raw.records).flatten with
  | Except.error e => Except.error e
  | Except.ok pts =>
    match emapM pathEdges (groupByRuns raw.records) with
    | Except.error e => Except.error e
    | Except.ok edgeLists =>
      match edgeLists.flatten with
      | [] => Except.error ()
      | e :: es =>
        Except.ok ⟨asfScale asset pts, e :: es,
          [("all", List.replicate (asfScale asset pts).length true)]⟩

/-- `ASFImporter._parse_format`: tokenize then assemble. -/
def asfParseFormat (asset : Option (ℚ × ℚ)) (text : String) : Except Unit ASFResult :=
  match asfParseRaw text with
  | Except.error e => Except.error e
  | Except.ok raw => asfAssemble asset raw

/-- The ASF file text of the spec's concrete scenario 1. -/
def asfScenario1 : String :=
  "2\n0 0 0.1 0.2 0 0 0\n0 0 0.3 0.4 1 1 1\nimg.png\n"

/-- C1 counterexample: on the scenario-1 file both records are isolated,
but the single path has `path_type == '0'`, so the source appends the
loop-closing edge `(1, 0)`; the parse result is not the claimed one with
an empty edge list. -/
theorem asf_scenario1_counterexample :
    asfParseFormat none asfScenario1 ≠
      Except.ok ⟨[[1/5, 1/10], [2/5, 3/10]], [],
        [("all", [true, true])]⟩ ∧
    asfParseFormat none asfScenario1 =
      Except.ok ⟨[[1/5, 1/10], [2/5, 3/10]], [(1, 0)],
        [("all", [true, true])]⟩ := by
  constructor
  · with_unfolding_all decide
  · with_unfolding_all decide

/-- C1 (corrected): parsing the scenario-1 ASF text yields points
`[[0.2, 0.1], [0.4, 0.3]]` and the single label `"all"` with mask
`[true, true]` as claimed, but the edge list is `[(1, 0)]` (the closing
edge of the `path_type '0'` path), not empty. -/
theorem asf_scenario1_amended :
    asfParseFormat none asfScenario1 =
      Except.ok ⟨[[1/5, 1/10], [2/5, 3/10]], [(1, 0)],
        [("all", [true, true])]⟩ := by
  with_unfolding_all decide

/-! ## PTS importer (`PTSImporter._parse_format`) -/

/-- First scanning loop of `PTSImporter._parse_format`: consume lines until
one whose first token is an opening brace, returning the remaining lines.
A line with no tokens raises `IndexError` from `line.split()[0]`; if no
brace line exists the loop just exhausts the file. -/
def ptsScanToBrace : List String → Except Unit (List String)
  | [] => Except.ok []
  | l :: rest =>
    match pySplit l with
    | [] => Except.error ()
    | t :: _ =>
      if t = "\x7b" then Except.ok rest else ptsScanToBrace rest

/-- Second loop of `PTSImporter._parse_format`: every remaining line whose
first token is not a closing brace contributes its first two tokens as an
`(x, y)` pair; a line with no tokens raises `IndexError`, a line with one
token fails the two-element unpacking.  Note the loop never breaks: it
runs to the end of the file even after a closing-brace line. -/
def ptsCollect : List String → Except Unit (List (String × String))
  | [] => Except.ok []
  | l :: rest =>
    match pySplit l with
    | [] => Except.error ()
    | t :: ts =>
      if t = "\x7d" then ptsCollect rest
      else
        match ts with
        | [] => Except.error ()
        | t2 :: _ =>
          match ptsCollect rest with
          | Except.error e => Except.error e
          | Except.ok r => Except.ok ((t, t2) :: r)

/-- Modelled from the spec: the axis-ordering policy hook
(`PTSImporter._build_points`) is abstract in the module; its image-space
implementation lives outside the provided sources.  Per the spec it flips
the axes so the first axis is `y`. -/
def imageBuildPoints (xs ys : List ℚ) : List (List ℚ) :=
  ys.zipWith (fun y x => [y, x]) xs

/-- `PTSImporter._parse_format` on the file's line list: scan to the brace,
collect token pairs, convert both columns with `float()`, subtract 1 from
every value (PTS is 1-based) and hand the columns to the axis policy. -/
def ptsParseLines (build : List ℚ → List ℚ → List (List ℚ))
    (lines : List String) : Except Unit (List (List ℚ)) :=
  match ptsScanToBrace lines with
  | Except.error e => Except.error e
  | Except.ok rest =>
    match ptsCollect rest with
    | Except.error e => Except.error e
    | Except.ok pairs =>
      match emapM (fun p => pyFloatE p.1) pairs with
      | Except.error e => Except.error e
      | Except.ok xs =>
        match emapM (fun p => pyFloatE p.2) pairs with
        | Except.error e => Except.error e
        | Except.ok ys =>
          Except.ok (build (xs.map (fun x => x - 1)) (ys.map (fun y => y - 1)))

/-- `PTSImporter._parse_format` from the raw file text. -/
def ptsParseFormat (build : List ℚ → List ℚ → List (List ℚ))
    (text : String) : Except Unit (List (List ℚ)) :=
  ptsParseLines build (pyLines text)

/-- A line acceptable before the opening brace: it has a first token and
that token is not the opening brace. -/
def ptsPreLine (l : String) : Bool :=
  match pySplit l with
  | [] => false
  | t :: _ => decide (t ≠ "\x7b")

/-- First token of a line, if any. -/
def ptsFirstTok (l : String) : Option String := (pySplit l).head?

/-- A coordinate line carrying the pair `v`: at least two tokens, the
first is not a closing brace, and the two tokens parse as the floats
`v.1` and `v.2`. -/
def ptsGoodLine (l : String) (v : ℚ × ℚ) : Bool :=
  match pySplit l with
  | t1 :: t2 :: _ =>
    decide (t1 ≠ "\x7d") && decide (pyFloat t1 = some v.1) &&
      decide (pyFloat t2 = some v.2)
  | _ => false

/-! ## File-handle usage of the importers

Each `_parse_format` touches exactly one external resource, the opened
file.  `ASFImporter`, `LM2Importer` and `LJSONImporter` open it inside a
`with` block, whose semantics close the handle on scope exit whether the
body completes or raises.  `PTSImporter._parse_format` instead binds
`f = open(self.filepath, 'r')` and never calls `close`, on any path.  The
traces below record the open/close events each importer performs as a
function of whether the parsing body raises. -/

/-- A file-handle event. -/
inductive FileEvent
  | opened
  | closed
deriving DecidableEq

/-- Events of a `with open(...)` block: the handle is closed on both the
normal and the raising exit path. -/
def withOpenEvents (_bodyRaises : Bool) : List FileEvent :=
  [FileEvent.opened, FileEvent.closed]

/-- Events of a bare `open(...)` with no corresponding `close()`: the
handle is opened and never explicitly released, on either exit path. -/
def bareOpenEvents (_bodyRaises : Bool) : List FileEvent :=
  [FileEvent.opened]

/-- `ASFImporter._parse_format` uses `with open(self.filepath, 'r')`. -/
def asfFileEvents : Bool → List FileEvent := withOpenEvents

/-- `LM2Importer._parse_format` uses `with open(self.filepath, 'r')`. -/
def lm2FileEvents : Bool → List FileEvent := withOpenEvents

/-- `LJSONImporter._parse_format` uses `with open(self.filepath, 'r')`. -/
def ljsonFileEvents : Bool → List FileEvent := withOpenEvents

/-- `PTSImporter._parse_format` uses `f = open(self.filepath, 'r')` and
never closes `f`. -/
def ptsFileEvents : Bool → List FileEvent := bareOpenEvents

/-- A trace releases its handle when every open is matched by a close. -/
def handleReleased (evs : List FileEvent) : Bool :=
  decide (evs.count FileEvent.closed = evs.count FileEvent.opened)

/-! ## Ordered-dictionary insertion

`OrderedDict` construction from a pair sequence inserts pairs in order;
inserting an existing key overwrites its value in place, so duplicate
keys collapse to a single entry. -/

/-- Insert one key/value pair with Python `dict` semantics. -/
def odInsert {α : Type} (k : String) (v : α) :
    List (String × α) → List (String × α)
  | [] => [(k, v)]
  | p :: rest => if p.1 = k then (k, v) :: rest else p :: odInsert k v rest

/-- `OrderedDict(pairs)`: insert every pair in order. -/
def odFromList {α : Type} (ps : List (String × α)) : List (String × α) :=
  ps.foldl (fun acc p => odInsert p.1 p.2 acc) []

/-! ## LM2 importer (`LM2Importer._parse_format`) -/

/-- Declared point count, normalized label names and `(x, y)` coordinate
pairs read by the line-consuming stage of `LM2Importer._parse_format`. -/
structure LM2Raw where
  numPoints : Nat
  labels : List String
  points : List (ℚ × ℚ)
deriving DecidableEq

/-- `'_'.join(l.lower().split())`: lower-case and replace whitespace runs
with single underscores. -/
def normalizeLabel (l : String) : String :=
  String.mk ((((pySplit (String.mk (l.data.map Char.toLower))).map
    String.data).intersperse ['_']).flatten)

/-- Parse one LM2 coordinate line: first two tokens as floats. -/
def lm2CoordOfLine (l : String) : Except Unit (ℚ × ℚ) :=
  match pySplit l with
  | t1 :: t2 :: _ =>
    match pyFloat t1 with
    | none => Except.error ()
    | some x =>
      match pyFloat t2 with
      | none => Except.error ()
      | some y => Except.ok (x, y)
  | _ => Except.error ()

/-- Line-consuming stage of `LM2Importer._parse_format`: filter
comment/blank lines, read `N` from the first token of the first line,
expect the literal `"Labels:"` line, pop `N` label lines (normalized),
expect the literal `"2D Image coordinates:"` line, pop `N` coordinate
lines.  Running out of lines raises `IndexError`; a negative `N` makes
`np.eye(N)` raise, so it is an error as well. -/
def lm2ParseRaw (text : String) : Except Unit LM2Raw :=
  match (pyLines text).filter keepLine with
  | [] => Except.error ()
  | countLine :: rest =>
    match pySplit countLine with
    | [] => Except.error ()
    | t :: _ =>
      match pyInt t with
      | none => Except.error ()
      | some n =>
        if n < 0 then Except.error ()
        else
          match rest with
          | [] => Except.error ()
          | lblHdr :: rest2 =>
            if lblHdr ≠ "Labels:" then Except.error ()
            else if rest2.length < n.toNat then Except.error ()
            else
              match rest2.drop n.toNat with
              | [] => Except.error ()
              | coordHdr :: rest4 =>
                if coordHdr ≠ "2D Image coordinates:" then Except.error ()
                else if rest4.length < n.toNat then Except.error ()
                else
                  match emapM lm2CoordOfLine (rest4.take n.toNat) with
                  | Except.error e => Except.error e
                  | Except.ok pts =>
                    Except.ok ⟨n.toNat, (rest2.take n.toNat).map normalizeLabel, pts⟩

/-- Row `k` of `np.eye(N)` as a boolean mask. -/
def identityMask (n k : Nat) : List Bool :=
  (List.range n).map (fun j => decide (j = k))

/-- All rows of `np.eye(N)`. -/
def identityMasks (n : Nat) : List (List Bool) :=
  (List.range n).map (identityMask n)

/-- What `LM2Importer._parse_format` hands to `LandmarkGroup`: the
`[y, x]` point rows, the empty adjacency, and the ordered label→mask
dictionary built from `zip(labels, masks)`. -/
structure LM2Result where
  points : List (List ℚ)
  edges : List (Int × Int)
  labelsToMasks : List (String × List Bool)
deriving DecidableEq

/-- Assembly stage of `LM2Importer._parse_format`. -/
def lm2Assemble (raw : LM2Raw) : LM2Result :=
  { points := raw.points.map (fun p => [p.2, p.1])
    edges := []
    labelsToMasks := odFromList (raw.labels.zip (identityMasks raw.numPoints)) }

/-- `LM2Importer._parse_format`. -/
def lm2ParseFormat (text : String) : Except Unit LM2Result :=
  match lm2ParseRaw text with
  | Except.error e => Except.error e
  | Except.ok raw => Except.ok (lm2Assemble raw)

/-! ## LJSON importer (`LJSONImporter._parse_format` and helpers) -/

/-- One entry of a point's coordinate list in the JSON document. -/
inductive JVal
  | null
  | num (q : ℚ)
deriving DecidableEq

/-- One entry of the points list: either the JSON `null` value or a list
of coordinate entries. -/
inductive JPoint
  | null
  | pt (cs : List JVal)
deriving DecidableEq

/-- `np.nan if x is None else x` on one coordinate entry (`none` models
the not-a-number sentinel). -/
def coordOfJVal : JVal → Option ℚ
  | JVal.null => none
  | JVal.num q => some q

/-- `[np.nan if x is None else x for x in chain(*points_list)]`: flatten
the points list coordinate by coordinate.  A whole point given as the
JSON `null` value is not iterable, so `chain` raises `TypeError` there;
only coordinate-level nulls are mapped to the sentinel. -/
def chainFlatten : List JPoint → Except Unit (List (Option ℚ))
  | [] => Except.ok []
  | JPoint.null :: _ => Except.error ()
  | JPoint.pt cs :: rest =>
    match chainFlatten rest with
    | Except.error e => Except.error e
    | Except.ok r => Except.ok (cs.map coordOfJVal ++ r)

/-- `np.array(flat).reshape([-1, d])`: rows of width `d`. -/
def reshapeRows {α : Type} (d : Nat) (l : List α) : List (List α) :=
  (List.range (l.length / d)).map (fun i => (l.drop (i * d)).take d)

/-- `_ljson_parse_null_values`: flatten with null replacement, then
reshape to rows of width `len(points_list[0])`.  An empty points list
raises `IndexError` on `points_list[0]`; a width of zero or a total size
not divisible by the width makes `reshape` raise. -/
def ljsonParseNullValues (pl : List JPoint) : Except Unit (List (List (Option ℚ))) :=
  match chainFlatten pl with
  | Except.error e => Except.error e
  | Except.ok flat =>
    match pl with
    | [] => Except.error ()
    | JPoint.null :: _ => Except.error ()
    | JPoint.pt cs :: _ =>
      if cs.length = 0 then Except.error ()
      else if cs.length ∣ flat.length then Except.ok (reshapeRows cs.length flat)
      else Except.error ()

/-- One group of an LJSON v1 document: its label, the `point` value of
each landmark entry, and its local connectivity (`group.get('connectivity',
[])`, so a missing key is the empty list). -/
structure LJGroup where
  label : String
  landmarks : List JPoint
  connectivity : List (Int × Int)
deriving DecidableEq

/-- The `landmarks` object of an LJSON v2 document;
`connectivity` is read with `.get`, so it may be absent (`none`). -/
structure LJLandmarks where
  points : List JPoint
  connectivity : Option (List (Int × Int))
deriving DecidableEq

/-- One entry of the v2 `labels` list: a name and an index list. -/
structure LJLabel where
  label : String
  mask : List Int
deriving DecidableEq

/-- An LJSON document, holding the fields either version reads. -/
structure LJDoc where
  version : Option Int
  groups : List LJGroup
  landmarks : LJLandmarks
  labels : List LJLabel
deriving DecidableEq

/-- The triple an LJSON parse hands to `LandmarkGroup.init_from_edges`
(v2 passes `connectivity` through `.get`, so it may be `none`). -/
structure LJResult where
  points : List (List (Option ℚ))
  edges : Option (List (Int × Int))
  labels : List (String × List Bool)
deriving DecidableEq

/-- Accumulator of the group loop of `_parse_ljson_v1`. -/
structure V1Acc where
  allPoints : List JPoint
  labels : List String
  slices : List (Nat × Nat)
  offset : Nat
  conn : List (Int × Int)

/-- One iteration of the group loop of `_parse_ljson_v1`: record the
label, the slice `[offset, offset + len(lms))`, the connectivity shifted
by the running offset, the points, and advance the offset. -/
def v1Step (acc : V1Acc) (g : LJGroup) : V1Acc :=
  { allPoints := acc.allPoints ++ g.landmarks
    labels := acc.labels ++ [g.label]
    slices := acc.slices ++ [(acc.offset, g.landmarks.length + acc.offset)]
    offset := acc.offset + g.landmarks.length
    conn := acc.conn ++ g.connectivity.map
      (fun p => (p.1 + (acc.offset : Int), p.2 + (acc.offset : Int))) }

/-- `mask[slice(a, b)] = True` over `np.zeros(n)` (slices clamp). -/
def sliceMask (n : Nat) (sl : Nat × Nat) : List Bool :=
  (List.range n).map (fun i => decide (sl.1 ≤ i ∧ i < sl.2))

/-- The accumulator after the whole group loop of `_parse_ljson_v1`. -/
def v1Acc (doc : LJDoc) : V1Acc := doc.groups.foldl v1Step ⟨[], [], [], 0, []⟩

/-- `_parse_ljson_v1` (the deprecation warning is an advisory side
channel with no effect on the result). -/
def parseLjsonV1 (doc : LJDoc) : Except Unit LJResult :=
  match ljsonParseNullValues (v1Acc doc).allPoints with
  | Except.error e => Except.error e
  | Except.ok pts =>
    Except.ok
      { points := pts
        edges := some (v1Acc doc).conn
        labels := odFromList ((v1Acc doc).labels.zip
          ((v1Acc doc).slices.map (sliceMask pts.length))) }

/-- `mask[idxs] = True` over `np.zeros(n)` with NumPy integer fancy
indexing: a negative index is taken from the end, an out-of-range index
raises `IndexError`. -/
def npSetTrue (n : Nat) (idxs : List Int) : Except Unit (List Bool) :=
  idxs.foldlM
    (fun m i =>
      let j : Int := if i < 0 then i + (n : Int) else i
      if 0 ≤ j ∧ j < (n : Int) then Except.ok (m.set j.toNat true)
      else Except.error ())
    (List.replicate n false)

/-- `_parse_ljson_v2`. -/
def parseLjsonV2 (doc : LJDoc) : Except Unit LJResult :=
  match ljsonParseNullValues doc.landmarks.points with
  | Except.error e => Except.error e
  | Except.ok pts =>
    match emapM
        (fun lb =>
          match npSetTrue pts.length lb.mask with
          | Except.error e => Except.error e
          | Except.ok m => Except.ok (lb.label, m))
        doc.labels with
    | Except.error e => Except.error e
    | Except.ok pairs =>
      Except.ok
        { points := pts
          edges := doc.landmarks.connectivity
          labels := odFromList pairs }

/-- Errors of `LJSONImporter._parse_format`: the explicit `ValueError`
for an unknown version (whose message matters), or any error raised by
the dispatched version parser. -/
inductive LJErr
  | valueError (msg : String)
  | parseFail
deriving DecidableEq

/-- Decimal rendering of a natural number. -/
def natStrAux : Nat → Nat → List Char → List Char
  | 0, _, acc => acc
  | fuel + 1, n, acc =>
    let d := Char.ofNat (48 + n % 10)
    if n < 10 then d :: acc else natStrAux fuel (n / 10) (d :: acc)

/-- Decimal rendering of a natural number. -/
def natStr (n : Nat) : String := String.mk (natStrAux (n + 1) n [])

/-- Python `str()` of an integer. -/
def intStr : Int → String
  | Int.ofNat n => natStr n
  | Int.negSucc n => "-" ++ natStr (n + 1)

/-- Python `str()` of the raw `version` value (`None` when missing). -/
def ljsonVersionRepr : Option Int → String
  | none => "None"
  | some v => intStr v

/-- The `ValueError` message
`"\x7b\x7d has unknown version \x7b\x7d must be 1, or 2".format(self.filepath, v)`. -/
def ljsonUnknownVersionMsg (filepath : String) (v : Option Int) : String :=
  filepath ++ " has unknown version " ++ ljsonVersionRepr v ++ " must be 1, or 2"

/-- `LJSONImporter._parse_format`: look the version up in the parser
dictionary and dispatch, or raise the `ValueError` naming file and
version. -/
def ljsonParseFormat (filepath : String) (doc : LJDoc) : Except LJErr LJResult :=
  if doc.version = some 1 then
    match parseLjsonV1 doc with
    | Except.error _ => Except.error LJErr.parseFail
    | Except.ok r => Except.ok r
  else if doc.version = some 2 then
    match parseLjsonV2 doc with
    | Except.error _ => Except.error LJErr.parseFail
    | Except.ok r => Except.ok r
  else Except.error (LJErr.valueError (ljsonUnknownVersionMsg filepath doc.version))

/-! ## Claim C8: file-handle scoping -/

/-- C8 counterexample: the PTS parser binds `f = open(...)` with no
`with` block and never calls `close`, so its handle is not released on
the normal exit path nor on the raising one, refuting the claim that
every parser guarantees close-on-exit. -/
theorem pts_handle_leak_counterexample :
    handleReleased (ptsFileEvents false) = false ∧
    handleReleased (ptsFileEvents true) = false := by
  exact ⟨rfl, rfl⟩

/-- C8 (corrected): the ASF, LM2 and LJSON parsers acquire their file
handle with a `with` block and release it on every exit path, but the
PTS parser opens without scoped acquisition and never explicitly closes
its handle on any exit path. -/
theorem file_handle_scoping_amended :
    (∀ b, handleReleased (asfFileEvents b) = true) ∧
    (∀ b, handleReleased (lm2FileEvents b) = true) ∧
    (∀ b, handleReleased (ljsonFileEvents b) = true) ∧
    (∀ b, handleReleased (ptsFileEvents b) = false) := by
  exact ⟨fun _ => rfl, fun _ => rfl, fun _ => rfl, fun _ => rfl⟩

/-! ## Claim C7: unknown LJSON version -/

/-- C7 (confirmed): for any document whose `version` is neither 1 nor 2,
`LJSONImporter._parse_format` raises the `ValueError` whose message
contains the filepath and the rendered version value, and no result is
produced. -/
theorem ljson_unknown_version (filepath : String) (doc : LJDoc)
    (h1 : doc.version ≠ some 1) (h2 : doc.version ≠ some 2) :
    ljsonParseFormat filepath doc =
      Except.error (LJErr.valueError (ljsonUnknownVersionMsg filepath doc.version)) ∧
    (∃ a b, ljsonUnknownVersionMsg filepath doc.version = a ++ filepath ++ b) ∧
    (∃ a b, ljsonUnknownVersionMsg filepath doc.version =
      a ++ ljsonVersionRepr doc.version ++ b) ∧
    (∀ r, ljsonParseFormat filepath doc ≠ Except.ok r) := by
  have hmain : ljsonParseFormat filepath doc =
      Except.error (LJErr.valueError (ljsonUnknownVersionMsg filepath doc.version)) := by
    unfold ljsonParseFormat
    rw [if_neg h1, if_neg h2]
  refine ⟨hmain, ⟨"", " has unknown version " ++ ljsonVersionRepr doc.version ++
      " must be 1, or 2", ?_⟩,
    ⟨filepath ++ " has unknown version ", " must be 1, or 2", ?_⟩, ?_⟩
  · apply String.ext
    simp [ljsonUnknownVersionMsg]
  · apply String.ext
    simp [ljsonUnknownVersionMsg]
  · intro r h
    rw [hmain] at h
    exact Except.noConfusion h

/-- A version-3 document for the C7 witness (scenario 4 of the spec). -/
def ljsonDocV3 : LJDoc := ⟨some 3, [], ⟨[], none⟩, []⟩

/-- C7 witness at a concrete version-3 document. -/
theorem ljson_unknown_version_witness :
    ljsonParseFormat "f.ljson" ljsonDocV3 =
      Except.error (LJErr.valueError
        (ljsonUnknownVersionMsg "f.ljson" ljsonDocV3.version)) ∧
    (∃ a b, ljsonUnknownVersionMsg "f.ljson" ljsonDocV3.version =
      a ++ "f.ljson" ++ b) ∧
    (∃ a b, ljsonUnknownVersionMsg "f.ljson" ljsonDocV3.version =
      a ++ ljsonVersionRepr ljsonDocV3.version ++ b) ∧
    (∀ r, ljsonParseFormat "f.ljson" ljsonDocV3 ≠ Except.ok r) :=
  ljson_unknown_version "f.ljson" ljsonDocV3 (by decide) (by decide)

/-! ## Claim C2: LJSON null handling (counterexample part) -/

/-- The LJSON v2 document of the spec's concrete scenario 3, whose third
point is the JSON `null` value. -/
def ljsonScenario3 : LJDoc :=
  { version := some 2
    groups := []
    landmarks :=
      { points := [JPoint.pt [JVal.num 0, JVal.num 0],
                   JPoint.pt [JVal.num 1, JVal.num 1], JPoint.null]
        connectivity := some [(0, 1)] }
    labels := [⟨"a", [0, 1]⟩, ⟨"b", [2]⟩] }

/-- C2 counterexample: on the scenario-3 document, `chain(*points_list)`
tries to iterate the `None` entry and raises `TypeError`, so the parse
fails instead of producing a NaN-filled third point. -/
theorem ljson_null_point_counterexample :
    parseLjsonV2 ljsonScenario3 = Except.error () ∧
    ljsonParseFormat "face.ljson" ljsonScenario3 = Except.error LJErr.parseFail := by
  exact ⟨by with_unfolding_all decide, by with_unfolding_all decide⟩

/-! ## Claim C3: LM2 label partition (counterexample part) -/

/-- An LM2 file declaring 2 points whose two label lines normalize to the
same name. -/
def lm2DupText : String :=
  "2 Landmarks\nLabels:\nA\nA\n2D Image coordinates:\n1 2\n3 4\n"

/-- C3 counterexample: the duplicate-label file declares 2 points, but
`OrderedDict(zip(labels, masks))` collapses the two equal label names, so
only 1 label is produced (and its mask is the second one-hot row, leaving
point 0 uncovered). -/
theorem lm2_duplicate_label_counterexample :
    lm2ParseRaw lm2DupText = Except.ok ⟨2, ["a", "a"], [(1, 2), (3, 4)]⟩ ∧
    (lm2ParseFormat lm2DupText).map (fun r => r.labelsToMasks) =
      Except.ok [("a", [false, true])] ∧
    (1 : Nat) ≠ 2 := by
  refine ⟨by with_unfolding_all decide, by with_unfolding_all decide, by decide⟩

/-! ## Claim C5: ASF edge indices (counterexample part) -/

/-- An ASF file accepted by the parser that declares 1 point but whose
record names point number 5 connecting to 9. -/
def asfOutOfRangeText : String := "1\n0 1 0.1 0.2 5 7 9\nimg.png\n"

/-- C5 counterexample: the parser accepts this file, produces the declared
1 point, and emits the edge `(5, 9)` taken verbatim from the record
fields: the edge indices are not below the declared count. -/
theorem asf_edge_range_counterexample :
    asfParseFormat none asfOutOfRangeText =
      Except.ok ⟨[[1/5, 1/10]], [(5, 9)], [("all", [true])]⟩ ∧
    ¬ ((9 : Int) < (1 : Int)) := by
  exact ⟨by with_unfolding_all decide, by decide⟩

/-! ## Generic lemmas about `emapM` -/

theorem emapM_ok_length {α β : Type} {f : α → Except Unit β} :
    ∀ {l : List α} {l2 : List β}, emapM f l = Except.ok l2 → l2.length = l.length := by
  intro l
  induction l with
  | nil =>
    intro l2 h
    simp only [emapM] at h
    cases h
    rfl
  | cons a as ih =>
    intro l2 h
    simp only [emapM] at h
    cases hfa : f a with
    | error e => rw [hfa] at h; exact Except.noConfusion h
    | ok b =>
      rw [hfa] at h
      cases has : emapM f as with
      | error e => rw [has] at h; exact Except.noConfusion h
      | ok bs =>
        rw [has] at h
        cases h
        simp [ih has]

theorem emapM_mem {α β : Type} {f : α → Except Unit β} :
    ∀ {l : List α} {l2 : List β}, emapM f l = Except.ok l2 →
      ∀ b ∈ l2, ∃ a ∈ l, f a = Except.ok b := by
  intro l
  induction l with
  | nil =>
    intro l2 h
    simp only [emapM] at h
    cases h
    intro b hb
    exact absurd hb (List.not_mem_nil b)
  | cons a as ih =>
    intro l2 h
    simp only [emapM] at h
    cases hfa : f a with
    | error e => rw [hfa] at h; exact Except.noConfusion h
    | ok b0 =>
      rw [hfa] at h
      cases has : emapM f as with
      | error e => rw [has] at h; exact Except.noConfusion h
      | ok bs =>
        rw [has] at h
        cases h
        intro b hb
        rcases List.mem_cons.mp hb with hb | hb
        · exact ⟨a, List.mem_cons_self a as, hb ▸ hfa⟩
        · rcases ih has b hb with ⟨a2, ha2, hfa2⟩
          exact ⟨a2, List.mem_cons_of_mem a ha2, hfa2⟩

theorem emapM_all_nil {α : Type} {f : α → Except Unit (List (Int × Int))} :
    ∀ {l : List α}, (∀ a ∈ l, f a = Except.ok []) →
      ∃ ls, emapM f l = Except.ok ls ∧ ls.flatten = [] := by
  intro l
  induction l with
  | nil => exact fun _ => ⟨[], rfl, rfl⟩
  | cons a as ih =>
    intro h
    rcases ih (fun x hx => h x (List.mem_cons_of_mem a hx)) with ⟨ls, hls, hfl⟩
    refine ⟨[] :: ls, ?_, by simp [hfl]⟩
    simp only [emapM, h a (List.mem_cons_self a as), hls]

/-! ## Lemmas about the ASF grouping and edges -/

theorem gbAux_flatten (l : List ASFRecord) :
    ∀ (k : String) (cur : List ASFRecord), (gbAux k cur l).flatten = cur ++ l := by
  induction l with
  | nil => intro k cur; simp [gbAux]
  | cons r rest ih =>
    intro k cur
    unfold gbAux
    by_cases h : r.path_num = k
    · rw [if_pos h, ih]
      simp
    · rw [if_neg h]
      simp [ih]

theorem groupByRuns_flatten (l : List ASFRecord) : (groupByRuns l).flatten = l := by
  cases l with
  | nil => rfl
  | cons r rest =>
    unfold groupByRuns
    rw [gbAux_flatten]
    rfl

theorem mem_of_mem_groupByRuns {l : List ASFRecord} {path : List ASFRecord}
    (hp : path ∈ groupByRuns l) {r : ASFRecord} (hr : r ∈ path) : r ∈ l := by
  rw [← groupByRuns_flatten l]
  exact List.mem_flatten.mpr ⟨path, hp, hr⟩

theorem vertexEdge_ok {r : ASFRecord} {e : Int × Int}
    (h : vertexEdge r = Except.ok e) :
    pyInt r.point_num = some e.1 ∧ pyInt r.connects_to = some e.2 := by
  unfold vertexEdge at h
  cases h1 : pyInt r.point_num with
  | none => simp [h1] at h
  | some a =>
    simp only [h1] at h
    cases h2 : pyInt r.connects_to with
    | none => simp [h2] at h
    | some b =>
      simp only [h2] at h
      cases h
      exact ⟨rfl, rfl⟩

theorem pathEdges_mem {path : List ASFRecord} {es : List (Int × Int)}
    (h : pathEdges path = Except.ok es) :
    ∀ e ∈ es, (∃ r ∈ path, pyInt r.point_num = some e.1) ∧
      (∃ r ∈ path, pyInt r.connects_to = some e.2 ∨ pyInt r.point_num = some e.2) := by
  unfold pathEdges at h
  cases hbase : emapM vertexEdge (path.filter (fun r => !(isolatedRec r))) with
  | error e0 => simp [hbase] at h
  | ok base =>
    simp only [hbase] at h
    have hmem : ∀ e ∈ base, (∃ r ∈ path, pyInt r.point_num = some e.1) ∧
        (∃ r ∈ path, pyInt r.connects_to = some e.2 ∨ pyInt r.point_num = some e.2) := by
      intro e he
      rcases emapM_mem hbase e he with ⟨r, hr, hve⟩
      have hrp : r ∈ path := (List.mem_filter.mp hr).1
      rcases vertexEdge_ok hve with ⟨h1, h2⟩
      exact ⟨⟨r, hrp, h1⟩, ⟨r, hrp, Or.inl h2⟩⟩
    cases hhd : path.head? with
    | none =>
      have hnil : path = [] := List.head?_eq_none_iff.mp hhd
      subst hnil
      replace h : Except.ok base = Except.ok es := h
      cases h
      exact hmem
    | some first =>
      cases hlst : path.getLast? with
      | none =>
        have hnil : path = [] := List.getLast?_eq_none_iff.mp hlst
        subst hnil
        simp at hhd
      | some last =>
        rw [hhd, hlst] at h
        replace h : pathClose first last base = Except.ok es := h
        have hfirstmem : first ∈ path := List.mem_of_mem_head? hhd
        have hlastmem : last ∈ path := List.mem_of_mem_getLast? hlst
        unfold pathClose at h
        by_cases htype : first.path_type = "0"
        · rw [if_pos htype] at h
          cases hla : pyInt last.point_num with
          | none => simp [hla] at h
          | some a =>
            simp only [hla] at h
            cases hfi : pyInt first.point_num with
            | none => simp [hfi] at h
            | some b =>
              simp only [hfi] at h
              cases h
              intro e he
              rcases List.mem_append.mp he with he | he
              · exact hmem e he
              · have : e = (a, b) := by simpa using he
                subst this
                exact ⟨⟨last, hlastmem, hla⟩, ⟨first, hfirstmem, Or.inr hfi⟩⟩
        · rw [if_neg htype] at h
          cases h
          exact hmem

theorem pathEdges_empty {path : List ASFRecord}
    (hiso : ∀ r ∈ path, isolatedRec r = true)
    (htype : ∀ r ∈ path, r.path_type ≠ "0") :
    pathEdges path = Except.ok [] := by
  have hfilter : path.filter (fun r => !(isolatedRec r)) = [] := by
    rw [List.filter_eq_nil_iff]
    intro a ha
    simp [hiso a ha]
  unfold pathEdges
  rw [hfilter]
  cases path with
  | nil => rfl
  | cons first rest =>
    cases hlst : (first :: rest).getLast? with
    | none =>
      have hnil : first :: rest = [] := List.getLast?_eq_none_iff.mp hlst
      exact List.noConfusion hnil
    | some last =>
      show pathClose first last [] = Except.ok []
      unfold pathClose
      rw [if_neg (htype first (List.mem_cons_self first rest))]

theorem asfParseRaw_length {text : String} {raw : ASFRaw}
    (h : asfParseRaw text = Except.ok raw) : raw.records.length = raw.count := by
  unfold asfParseRaw at h
  split at h
  · exact Except.noConfusion h
  · split at h
    · exact Except.noConfusion h
    · split at h
      · exact Except.noConfusion h
      · split at h
        · exact Except.noConfusion h
        · split at h
          · exact Except.noConfusion h
          · split at h
            · exact Except.noConfusion h
            · rename_i ls countLine rest hfil oi n hint hre hn hbl scr records hrec
              cases h
              have hlen := emapM_ok_length hrec
              rw [List.length_take] at hlen
              have h2 := Nat.le_of_not_lt hbl
              show records.length = n.toNat
              omega

/-! ## Claim C5: ASF point count and edge bounds (amended part) -/

/-- An optional parsed integer lies in `[0, count)` whenever it parses. -/
def optInRange (count : Nat) : Option Int → Bool
  | none => true
  | some z => decide (0 ≤ z ∧ z < (count : Int))

/-- C5 (corrected): for every accepted ASF file the number of points
equals the declared count; the emitted edge indices are taken verbatim
from the file's `point_num`/`connects_to` fields, so they are below the
count exactly when those fields are (the parser itself performs no range
check — see the counterexample). -/
theorem asf_count_and_bounded_edges (text : String) (asset : Option (ℚ × ℚ))
    (raw : ASFRaw) (res : ASFResult)
    (hraw : asfParseRaw text = Except.ok raw)
    (hres : asfAssemble asset raw = Except.ok res) :
    asfParseFormat asset text = Except.ok res ∧
    res.points.length = raw.count ∧
    ((∀ r ∈ raw.records, optInRange raw.count (pyInt r.point_num) = true ∧
        optInRange raw.count (pyInt r.connects_to) = true) →
      ∀ e ∈ res.edges, 0 ≤ e.1 ∧ e.1 < (raw.count : Int) ∧
        0 ≤ e.2 ∧ e.2 < (raw.count : Int)) := by
  have hmain : asfParseFormat asset text = Except.ok res := by
    unfold asfParseFormat
    simp only [hraw]
    exact hres
  unfold asfAssemble at hres
  cases hpts : emapM recCoord (groupByRuns raw.records).flatten with
  | error e => simp [hpts] at hres
  | ok pts =>
    simp only [hpts] at hres
    cases hel : emapM pathEdges (groupByRuns raw.records) with
    | error e => simp [hel] at hres
    | ok edgeLists =>
      simp only [hel] at hres
      cases hfl : edgeLists.flatten with
      | nil => simp [hfl] at hres
      | cons e0 es0 =>
        simp only [hfl] at hres
        cases hres
        refine ⟨hmain, ?_, ?_⟩
        · have h1 : pts.length = (groupByRuns raw.records).flatten.length :=
            emapM_ok_length hpts
          rw [groupByRuns_flatten] at h1
          have h2 := asfParseRaw_length hraw
          cases asset <;> simp [asfScale, h1, h2]
        · intro hbound e he
          have he2 : e ∈ edgeLists.flatten := by rw [hfl]; exact he
          rcases List.mem_flatten.mp he2 with ⟨es, hes, hees⟩
          rcases emapM_mem hel es hes with ⟨path, hpath, hpe⟩
          rcases pathEdges_mem hpe e hees with ⟨⟨r1, hr1, hp1⟩, ⟨r2, hr2, hp2⟩⟩
          have hb1 := (hbound r1 (mem_of_mem_groupByRuns hpath hr1)).1
          rw [hp1] at hb1
          have hbnd1 : 0 ≤ e.1 ∧ e.1 < (raw.count : Int) := by
            simpa [optInRange] using hb1
          have hbnd2 : 0 ≤ e.2 ∧ e.2 < (raw.count : Int) := by
            rcases hp2 with hp2 | hp2
            · have hb2 := (hbound r2 (mem_of_mem_groupByRuns hpath hr2)).2
              rw [hp2] at hb2
              simpa [optInRange] using hb2
            · have hb2 := (hbound r2 (mem_of_mem_groupByRuns hpath hr2)).1
              rw [hp2] at hb2
              simpa [optInRange] using hb2
          exact ⟨hbnd1.1, hbnd1.2, hbnd2.1, hbnd2.2⟩

/-- An accepted ASF file with two connected records, all fields in range. -/
def asfBoundedText : String :=
  "2\n0 0 0.1 0.2 0 0 1\n0 0 0.3 0.4 1 1 0\nimg.png\n"

/-- Its tokenized form. -/
def asfBoundedRaw : ASFRaw :=
  ⟨2, [⟨"0", "0", "0.1", "0.2", "0", "0", "1"⟩,
       ⟨"0", "0", "0.3", "0.4", "1", "1", "0"⟩]⟩

/-- Its parse result. -/
def asfBoundedRes : ASFResult :=
  ⟨[[1/5, 1/10], [2/5, 3/10]], [(0, 1), (1, 0), (1, 0)], [("all", [true, true])]⟩

/-- C5 witness at a concrete in-range ASF file. -/
theorem asf_count_and_bounded_edges_witness :
    asfParseFormat none asfBoundedText = Except.ok asfBoundedRes ∧
    asfBoundedRes.points.length = asfBoundedRaw.count ∧
    (∀ e ∈ asfBoundedRes.edges, 0 ≤ e.1 ∧ e.1 < (asfBoundedRaw.count : Int) ∧
      0 ≤ e.2 ∧ e.2 < (asfBoundedRaw.count : Int)) := by
  have h := asf_count_and_bounded_edges asfBoundedText none asfBoundedRaw asfBoundedRes
    (by with_unfolding_all decide) (by with_unfolding_all decide)
  exact ⟨h.1, h.2.1, h.2.2 (by with_unfolding_all decide)⟩

/-! ## Claim C9: ASF with no emitted edges -/

/-- C9 (confirmed): when every record is isolated and no record opens a
`path_type '0'` path, no edge is ever appended, and the unconditional
`np.vstack(connectivity)` raises on the empty list, so the parse errors
instead of returning an empty edge list. -/
theorem asf_empty_edges_error (text : String) (asset : Option (ℚ × ℚ)) (raw : ASFRaw)
    (hraw : asfParseRaw text = Except.ok raw)
    (hiso : ∀ r ∈ raw.records, isolatedRec r = true)
    (htype : ∀ r ∈ raw.records, r.path_type ≠ "0") :
    asfParseFormat asset text = Except.error () := by
  have hpaths : ∀ path ∈ groupByRuns raw.records, pathEdges path = Except.ok [] := by
    intro path hp
    exact pathEdges_empty (fun r hr => hiso r (mem_of_mem_groupByRuns hp hr))
      (fun r hr => htype r (mem_of_mem_groupByRuns hp hr))
  rcases emapM_all_nil hpaths with ⟨ls, hls, hfl⟩
  unfold asfParseFormat
  simp only [hraw]
  unfold asfAssemble
  cases hpts : emapM recCoord (groupByRuns raw.records).flatten with
  | error e => simp [hpts]
  | ok pts => simp [hpts, hls, hfl]

/-- An ASF file whose single record is isolated on an open path. -/
def asfIsolatedText : String := "1\n0 1 0.1 0.2 0 0 0\nimg.png\n"

/-- Its tokenized form. -/
def asfIsolatedRaw : ASFRaw := ⟨1, [⟨"0", "1", "0.1", "0.2", "0", "0", "0"⟩]⟩

/-- C9 witness at a concrete edge-free ASF file. -/
theorem asf_empty_edges_error_witness :
    asfParseRaw asfIsolatedText = Except.ok asfIsolatedRaw ∧
    asfParseFormat none asfIsolatedText = Except.error () := by
  have h1 : asfParseRaw asfIsolatedText = Except.ok asfIsolatedRaw := by
    with_unfolding_all decide
  exact ⟨h1, asf_empty_edges_error asfIsolatedText none asfIsolatedRaw h1
    (by decide) (by decide)⟩

/-! ## Claim C2: LJSON null handling (amended part) -/

/-- The coordinate row a points-list entry contributes to the flattened
array (a whole-point `null` contributes nothing because `chain` raises on
it first). -/
def jpointRow : JPoint → List (Option ℚ)
  | JPoint.null => []
  | JPoint.pt cs => cs.map coordOfJVal

theorem chainFlatten_pts : ∀ {pl : List JPoint},
    (∀ p ∈ pl, ∃ cs, p = JPoint.pt cs) →
    chainFlatten pl = Except.ok ((pl.map jpointRow).flatten) := by
  intro pl
  induction pl with
  | nil => intro _; rfl
  | cons p rest ih =>
    intro h
    rcases h p (List.mem_cons_self p rest) with ⟨cs, rfl⟩
    simp only [chainFlatten, ih (fun q hq => h q (List.mem_cons_of_mem _ hq))]
    simp [jpointRow]

theorem flatten_length_uniform {α : Type} {d : Nat} :
    ∀ {rows : List (List α)}, (∀ r ∈ rows, r.length = d) →
      rows.flatten.length = rows.length * d := by
  intro rows
  induction rows with
  | nil => intro _; simp
  | cons r rows ih =>
    intro h
    have hr := h r (List.mem_cons_self r rows)
    have ht := ih (fun q hq => h q (List.mem_cons_of_mem r hq))
    simp only [List.flatten_cons, List.length_append, List.length_cons, hr, ht]
    ring

theorem drop_length_add {α : Type} :
    ∀ (l1 l2 : List α) (n : Nat), (l1 ++ l2).drop (l1.length + n) = l2.drop n := by
  intro l1
  induction l1 with
  | nil => intro l2 n; simp
  | cons a l ih =>
    intro l2 n
    simp only [List.length_cons, List.cons_append]
    rw [show l.length + 1 + n = (l.length + n) + 1 by omega, List.drop_succ_cons]
    exact ih l2 n

theorem reshapeRows_flatten {α : Type} (d : Nat) (hd : 0 < d) :
    ∀ (rows : List (List α)), (∀ r ∈ rows, r.length = d) →
      reshapeRows d rows.flatten = rows := by
  intro rows
  induction rows with
  | nil => intro _; simp [reshapeRows]
  | cons r rows ih =>
    intro h
    have hr := h r (List.mem_cons_self r rows)
    have ht := fun q hq => h q (List.mem_cons_of_mem r hq)
    have hlen : (r ++ rows.flatten).length = rows.flatten.length + d := by
      simp [hr, Nat.add_comm]
    unfold reshapeRows
    rw [List.flatten_cons, hlen, Nat.add_div_right _ hd, List.range_succ_eq_map]
    rw [List.map_cons, List.map_map]
    congr 1
    · show ((r ++ rows.flatten).drop (0 * d)).take d = r
      rw [Nat.zero_mul, List.drop_zero, ← hr, List.take_left]
    · have hstep : ∀ i, (((r ++ rows.flatten).drop ((Nat.succ i) * d)).take d) =
          ((rows.flatten.drop (i * d)).take d) := by
        intro i
        have : Nat.succ i * d = r.length + i * d := by
          rw [Nat.succ_mul, hr, Nat.add_comm]
        rw [this, drop_length_add]
      calc (List.range (rows.flatten.length / d)).map
            (fun i => ((r ++ rows.flatten).drop (Nat.succ i * d)).take d)
          = (List.range (rows.flatten.length / d)).map
            (fun i => ((rows.flatten.drop (i * d)).take d)) := by
            apply List.map_congr_left
            intro i _
            exact hstep i
        _ = rows := ih ht

/-- C2 (corrected): the null normalizer works coordinate-wise.  For a
points list whose entries are all coordinate vectors of the same positive
width, with every coordinate of entry `k` the JSON `null` value and every
other coordinate numeric, `_ljson_parse_null_values` succeeds, point `k`
is entirely the not-a-number sentinel and all other points are finite.
(A whole point given as the bare JSON `null` value instead makes the
parse raise `TypeError` — see the counterexample.) -/
theorem ljson_null_coords_amended (pl : List JPoint) (d k : Nat)
    (hd : 0 < d)
    (hu : ∀ p ∈ pl, ∃ cs, p = JPoint.pt cs ∧ cs.length = d)
    (hk : k < pl.length)
    (hnull : ∀ cs, pl.get? k = some (JPoint.pt cs) → ∀ c ∈ cs, c = JVal.null)
    (hnum : ∀ j, j ≠ k → ∀ cs, pl.get? j = some (JPoint.pt cs) →
      ∀ c ∈ cs, ∃ q, c = JVal.num q) :
    ∃ pts, ljsonParseNullValues pl = Except.ok pts ∧
      pts.length = pl.length ∧
      (∀ row, pts.get? k = some row → ∀ c ∈ row, c = none) ∧
      (∀ j, j ≠ k → ∀ row, pts.get? j = some row → ∀ c ∈ row, c ≠ none) := by
  have hrows : ∀ r ∈ pl.map jpointRow, r.length = d := by
    intro r hr
    rcases List.mem_map.mp hr with ⟨p, hp, rfl⟩
    rcases hu p hp with ⟨cs, rfl, hlen⟩
    simp [jpointRow, hlen]
  have hcf : chainFlatten pl = Except.ok ((pl.map jpointRow).flatten) :=
    chainFlatten_pts (fun p hp => (hu p hp).imp (fun cs hh => hh.1))
  have hflat := flatten_length_uniform hrows
  cases pl with
  | nil => exact absurd hk (Nat.not_lt_zero k)
  | cons p0 pl0 =>
    rcases hu p0 (List.mem_cons_self p0 pl0) with ⟨cs0, rfl, hcs0⟩
    have hres : ljsonParseNullValues (JPoint.pt cs0 :: pl0) =
        Except.ok ((JPoint.pt cs0 :: pl0).map jpointRow) := by
      unfold ljsonParseNullValues
      simp only [hcf]
      rw [if_neg (by omega : ¬ cs0.length = 0)]
      rw [if_pos (by rw [hcs0, hflat]; exact dvd_mul_left _ _)]
      rw [hcs0]
      exact congrArg Except.ok (reshapeRows_flatten d hd _ hrows)
    refine ⟨_, hres, by simp, ?_, ?_⟩
    · intro row hrow c hc
      rw [List.get?_map] at hrow
      rcases Option.map_eq_some'.mp hrow with ⟨p, hp, rfl⟩
      rcases hu p (List.get?_mem hp) with ⟨cs, rfl, _⟩
      rcases List.mem_map.mp hc with ⟨cv, hcv, rfl⟩
      rw [hnull cs hp cv hcv]
      rfl
    · intro j hj row hrow c hc
      rw [List.get?_map] at hrow
      rcases Option.map_eq_some'.mp hrow with ⟨p, hp, rfl⟩
      rcases hu p (List.get?_mem hp) with ⟨cs, rfl, _⟩
      rcases List.mem_map.mp hc with ⟨cv, hcv, rfl⟩
      rcases hnum j hj cs hp cv hcv with ⟨q, rfl⟩
      intro hcon
      exact Option.noConfusion hcon

/-- A three-point list whose middle point is `[null, null]`. -/
def ljsonNullCoordsW : List JPoint :=
  [JPoint.pt [JVal.num 0, JVal.num 0], JPoint.pt [JVal.null, JVal.null],
   JPoint.pt [JVal.num 1, JVal.num 1]]

/-- C2 witness at a concrete coordinate-null points list. -/
theorem ljson_null_coords_amended_witness :
    ∃ pts, ljsonParseNullValues ljsonNullCoordsW = Except.ok pts ∧
      pts.length = ljsonNullCoordsW.length ∧
      (∀ row, pts.get? 1 = some row → ∀ c ∈ row, c = none) ∧
      (∀ j, j ≠ 1 → ∀ row, pts.get? j = some row → ∀ c ∈ row, c ≠ none) := by
  refine ljson_null_coords_amended ljsonNullCoordsW 2 1 (by decide) ?_ (by decide) ?_ ?_
  · intro p hp
    rcases List.mem_cons.mp hp with rfl | hp
    · exact ⟨_, rfl, rfl⟩
    rcases List.mem_cons.mp hp with rfl | hp
    · exact ⟨_, rfl, rfl⟩
    rcases List.mem_cons.mp hp with rfl | hp
    · exact ⟨_, rfl, rfl⟩
    · exact absurd hp (List.not_mem_nil p)
  · intro cs hcs
    have h1 : JPoint.pt [JVal.null, JVal.null] = JPoint.pt cs := Option.some.inj hcs
    have h2 : [JVal.null, JVal.null] = cs := by injection h1
    subst h2
    exact (by decide : ∀ c ∈ [JVal.null, JVal.null], c = JVal.null)
  · intro j hj cs hcs c hc
    match j, hj, hcs with
    | 0, _, hcs =>
      have h1 : JPoint.pt [JVal.num 0, JVal.num 0] = JPoint.pt cs := Option.some.inj hcs
      have h2 : [JVal.num 0, JVal.num 0] = cs := by injection h1
      subst h2
      rcases List.mem_cons.mp hc with rfl | hc
      · exact ⟨0, rfl⟩
      rcases List.mem_cons.mp hc with rfl | hc
      · exact ⟨0, rfl⟩
      · exact absurd hc (List.not_mem_nil c)
    | 2, _, hcs =>
      have h1 : JPoint.pt [JVal.num 1, JVal.num 1] = JPoint.pt cs := Option.some.inj hcs
      have h2 : [JVal.num 1, JVal.num 1] = cs := by injection h1
      subst h2
      rcases List.mem_cons.mp hc with rfl | hc
      · exact ⟨1, rfl⟩
      rcases List.mem_cons.mp hc with rfl | hc
      · exact ⟨1, rfl⟩
      · exact absurd hc (List.not_mem_nil c)
    | n + 3, _, hcs => exact Option.noConfusion hcs

/-! ## Claim C3: LM2 label partition (amended part) -/

theorem odInsert_not_mem {α : Type} {k : String} {v : α} :
    ∀ {acc : List (String × α)}, k ∉ acc.map Prod.fst →
      odInsert k v acc = acc ++ [(k, v)] := by
  intro acc
  induction acc with
  | nil => intro _; rfl
  | cons p rest ih =>
    intro h
    have hne : p.1 ≠ k := by
      intro he
      exact h (by simp [he])
    unfold odInsert
    rw [if_neg hne, ih (fun hm => h (List.mem_cons_of_mem _ hm))]
    rfl

theorem odFromList_aux {α : Type} :
    ∀ (ps acc : List (String × α)), (ps.map Prod.fst).Nodup →
      (∀ kk ∈ ps.map Prod.fst, kk ∉ acc.map Prod.fst) →
      ps.foldl (fun a p => odInsert p.1 p.2 a) acc = acc ++ ps := by
  intro ps
  induction ps with
  | nil => intro acc _ _; simp
  | cons p rest ih =>
    intro acc hnd hdisj
    simp only [List.map_cons, List.nodup_cons] at hnd
    simp only [List.foldl_cons]
    rw [odInsert_not_mem (hdisj p.1 (by simp))]
    rw [ih (acc ++ [(p.1, p.2)]) hnd.2 ?_]
    · simp
    · intro kk hkk
      rw [List.map_append]
      intro hmem
      rcases List.mem_append.mp hmem with hmem | hmem
      · exact hdisj kk (List.mem_cons_of_mem _ hkk) hmem
      · have : kk = p.1 := by simpa using hmem
        subst this
        exact hnd.1 hkk

theorem odFromList_nodup {α : Type} (ps : List (String × α))
    (h : (ps.map Prod.fst).Nodup) : odFromList ps = ps := by
  unfold odFromList
  rw [odFromList_aux ps [] h (by simp)]
  simp

theorem count_true_map_range (N x : Nat) (hx : x < N) (f : Nat → Bool)
    (hf : ∀ j, f j = true ↔ j = x) :
    ((List.range N).map f).count true = 1 := by
  induction N with
  | zero => exact absurd hx (Nat.not_lt_zero x)
  | succ N ih =>
    rw [List.range_succ, List.map_append, List.count_append]
    by_cases hxN : x = N
    · subst hxN
      have h0 : ((List.range x).map f).count true = 0 := by
        rw [List.count_eq_zero]
        intro hmem
        rcases List.mem_map.mp hmem with ⟨j, hj, hfj⟩
        rw [(hf j).mp hfj] at hj
        exact absurd (List.mem_range.mp hj) (lt_irrefl x)
      rw [h0]
      simp [(hf x).mpr rfl]
    · have hxlt : x < N := Nat.lt_of_le_of_ne (Nat.le_of_lt_succ hx) hxN
      have hfN : f N = false := by
        cases hfn : f N
        · rfl
        · exact absurd ((hf N).mp hfn) (fun he => hxN he.symm)
      rw [ih hxlt]
      simp [hfN]

theorem identityMask_getD {N k i : Nat} (hi : i < N) :
    (identityMask N k).getD i false = decide (i = k) := by
  unfold identityMask
  have h1 : (List.map (fun j => decide (j = k)) (List.range N)).get? i =
      some (decide (i = k)) := by
    rw [List.get?_map, List.get?_range hi]
    rfl
  rw [List.getD_eq_getElem?_getD, ← List.get?_eq_getElem?, h1]
  rfl

theorem lm2ParseRaw_labels_length {text : String} {raw : LM2Raw}
    (h : lm2ParseRaw text = Except.ok raw) : raw.labels.length = raw.numPoints := by
  unfold lm2ParseRaw at h
  repeat'
    first
    | exact Except.noConfusion h
    | split at h
  cases h
  simp only [List.length_map, List.length_take]
  omega

/-- C3 (corrected): for every accepted LM2 file whose `N` normalized
label names are pairwise distinct, exactly `N` labels are produced, each
mask is one-hot, and at every point index exactly one mask is true
(pairwise disjoint and jointly exhaustive).  Duplicate label names
instead collapse in the ordered dictionary — see the counterexample. -/
theorem lm2_label_partition_amended (text : String) (raw : LM2Raw)
    (h : lm2ParseRaw text = Except.ok raw)
    (hnd : raw.labels.Nodup) :
    lm2ParseFormat text = Except.ok (lm2Assemble raw) ∧
    (lm2Assemble raw).labelsToMasks.length = raw.numPoints ∧
    (∀ p ∈ (lm2Assemble raw).labelsToMasks,
      p.2.length = raw.numPoints ∧ p.2.count true = 1) ∧
    (∀ i, i < raw.numPoints →
      ((lm2Assemble raw).labelsToMasks.map (fun p => p.2.getD i false)).count
        true = 1) := by
  have hlab : raw.labels.length = raw.numPoints := lm2ParseRaw_labels_length h
  have hmlen : (identityMasks raw.numPoints).length = raw.numPoints := by
    simp [identityMasks]
  have hziplen : raw.labels.length = (identityMasks raw.numPoints).length := by
    rw [hlab, hmlen]
  have hkeys : (raw.labels.zip (identityMasks raw.numPoints)).map Prod.fst =
      raw.labels := List.map_fst_zip _ _ (le_of_eq hziplen)
  have hod : (lm2Assemble raw).labelsToMasks =
      raw.labels.zip (identityMasks raw.numPoints) := by
    show odFromList _ = _
    rw [odFromList_nodup _ (by rw [hkeys]; exact hnd)]
  refine ⟨?_, ?_, ?_, ?_⟩
  · unfold lm2ParseFormat
    rw [h]
  · rw [hod, List.length_zip, hlab, hmlen, Nat.min_self]
  · intro p hp
    rw [hod] at hp
    have hsnd : p.2 ∈ identityMasks raw.numPoints := (List.of_mem_zip hp).2
    rcases List.mem_map.mp hsnd with ⟨kk, hkk, hmask⟩
    have hklt : kk < raw.numPoints := List.mem_range.mp hkk
    constructor
    · rw [← hmask]
      simp [identityMask]
    · rw [← hmask]
      exact count_true_map_range _ kk hklt _ (fun j => by simp)
  · intro i hi
    rw [hod]
    have hmapmap : (raw.labels.zip (identityMasks raw.numPoints)).map
        (fun p => p.2.getD i false) =
        ((raw.labels.zip (identityMasks raw.numPoints)).map Prod.snd).map
          (fun m => m.getD i false) := by
      rw [List.map_map]
      rfl
    rw [hmapmap, List.map_snd_zip _ _ (ge_of_eq hziplen)]
    unfold identityMasks
    rw [List.map_map]
    have hcongr : (List.range raw.numPoints).map
        ((fun m => m.getD i false) ∘ identityMask raw.numPoints) =
        (List.range raw.numPoints).map (fun kk => decide (i = kk)) := by
      apply List.map_congr_left
      intro kk _
      exact identityMask_getD hi
    rw [hcongr]
    exact count_true_map_range _ i hi _ (fun kk => by simp [eq_comm])

/-- An LM2 file with two distinct labels (scenario 2's `"Nose Tip"`
normalizing to `"nose_tip"` among them). -/
def lm2DistinctText : String :=
  "2 Landmarks\nLabels:\nNose Tip\nChin\n2D Image coordinates:\n1 2\n3 4\n"

/-- Its line-consumed form. -/
def lm2DistinctRaw : LM2Raw := ⟨2, ["nose_tip", "chin"], [(1, 2), (3, 4)]⟩

/-- C3 witness at a concrete distinct-label LM2 file. -/
theorem lm2_label_partition_amended_witness :
    lm2ParseFormat lm2DistinctText = Except.ok (lm2Assemble lm2DistinctRaw) ∧
    (lm2Assemble lm2DistinctRaw).labelsToMasks.length = lm2DistinctRaw.numPoints ∧
    (∀ p ∈ (lm2Assemble lm2DistinctRaw).labelsToMasks,
      p.2.length = lm2DistinctRaw.numPoints ∧ p.2.count true = 1) ∧
    (∀ i, i < lm2DistinctRaw.numPoints →
      ((lm2Assemble lm2DistinctRaw).labelsToMasks.map
        (fun p => p.2.getD i false)).count true = 1) :=
  lm2_label_partition_amended lm2DistinctText lm2DistinctRaw
    (by with_unfolding_all decide) (by decide)

/-! ## Claim C4: LJSON connectivity handling -/

/-- The claim's "starting offset" of group `i`: the number of points in
all preceding groups. -/
def v1Offset (gs : List LJGroup) (i : Nat) : Nat :=
  ((gs.take i).map (fun g => g.landmarks.length)).sum

/-- Shift both indices of every edge by `off`. -/
def shiftEdges (off : Nat) (conn : List (Int × Int)) : List (Int × Int) :=
  conn.map (fun p => (p.1 + (off : Int), p.2 + (off : Int)))

/-- The spec-side description of the v1 global edge list: every group's
local connectivity shifted by exactly that group's starting offset, in
group order. -/
def v1ExpectedEdges (gs : List LJGroup) : List (Int × Int) :=
  ((List.range gs.length).map (fun i =>
    ((gs.get? i).map (fun g => shiftEdges (v1Offset gs i) g.connectivity)).getD
      [])).flatten

/-- Edges contributed from a running offset onwards, in recursion form. -/
def v1EdgesFrom (base : Nat) : List LJGroup → List (Int × Int)
  | [] => []
  | g :: gs => shiftEdges base g.connectivity ++
      v1EdgesFrom (base + g.landmarks.length) gs

theorem v1StepAux_conn : ∀ (gs : List LJGroup) (acc : V1Acc),
    (gs.foldl v1Step acc).conn = acc.conn ++ v1EdgesFrom acc.offset gs := by
  intro gs
  induction gs with
  | nil => intro acc; simp [v1EdgesFrom]
  | cons g gs ih =>
    intro acc
    rw [List.foldl_cons, ih]
    simp [v1Step, v1EdgesFrom, shiftEdges]

theorem v1EdgesFrom_eq_expected : ∀ (gs : List LJGroup) (base : Nat),
    v1EdgesFrom base gs =
      ((List.range gs.length).map (fun i =>
        ((gs.get? i).map (fun g =>
          shiftEdges (base + v1Offset gs i) g.connectivity)).getD [])).flatten := by
  intro gs
  induction gs with
  | nil => intro base; simp [v1EdgesFrom]
  | cons g gs ih =>
    intro base
    rw [v1EdgesFrom]
    rw [List.length_cons, List.range_succ_eq_map, List.map_cons, List.map_map,
      List.flatten_cons]
    congr 1
    rw [ih (base + g.landmarks.length)]
    congr 1
    apply List.map_congr_left
    intro i _
    have hoff : v1Offset (g :: gs) (i + 1) = g.landmarks.length + v1Offset gs i := by
      simp [v1Offset]
    simp only [Function.comp_apply, List.get?_cons_succ, hoff, Nat.add_assoc]

/-- C4 (confirmed): an LJSON v2 parse passes the document's connectivity
through unchanged (including an absent one), while a v1 parse merges each
group's local connectivity shifted by exactly that group's starting
offset, the number of points in all preceding groups. -/
theorem ljson_connectivity_offsets :
    (∀ (doc : LJDoc) (r : LJResult), parseLjsonV2 doc = Except.ok r →
      r.edges = doc.landmarks.connectivity) ∧
    (∀ (doc : LJDoc) (r : LJResult), parseLjsonV1 doc = Except.ok r →
      r.edges = some (v1ExpectedEdges doc.groups)) := by
  constructor
  · intro doc r h
    unfold parseLjsonV2 at h
    split at h
    · exact Except.noConfusion h
    · split at h
      · exact Except.noConfusion h
      · cases h
        rfl
  · intro doc r h
    unfold parseLjsonV1 at h
    split at h
    · exact Except.noConfusion h
    · cases h
      show some (v1Acc doc).conn = some (v1ExpectedEdges doc.groups)
      congr 1
      have h1 : (v1Acc doc).conn = v1EdgesFrom 0 doc.groups := by
        unfold v1Acc
        rw [v1StepAux_conn]
        rfl
      rw [h1, v1EdgesFrom_eq_expected]
      unfold v1ExpectedEdges
      congr 1
      apply List.map_congr_left
      intro i _
      simp

/-- A v2 document with explicit connectivity. -/
def ljsonV2Doc : LJDoc :=
  { version := some 2
    groups := []
    landmarks :=
      { points := [JPoint.pt [JVal.num 0, JVal.num 0],
                   JPoint.pt [JVal.num 1, JVal.num 1]]
        connectivity := some [(0, 1)] }
    labels := [] }

/-- The v2 parse result of `ljsonV2Doc`. -/
def ljsonV2Res : LJResult :=
  ⟨[[some 0, some 0], [some 1, some 1]], some [(0, 1)], []⟩

/-- A v1 document with two one-point groups, each with a local self-edge. -/
def ljsonV1Doc : LJDoc :=
  { version := some 1
    groups := [⟨"a", [JPoint.pt [JVal.num 0, JVal.num 0]], [(0, 0)]⟩,
               ⟨"b", [JPoint.pt [JVal.num 1, JVal.num 1]], [(0, 0)]⟩]
    landmarks := ⟨[], none⟩
    labels := [] }

/-- The v1 parse result of `ljsonV1Doc`: the second group's local edge
`(0, 0)` is shifted by its offset 1 to `(1, 1)`. -/
def ljsonV1Res : LJResult :=
  ⟨[[some 0, some 0], [some 1, some 1]], some [(0, 0), (1, 1)],
   [("a", [true, false]), ("b", [false, true])]⟩

/-- C4 witness at concrete v1 and v2 documents. -/
theorem ljson_connectivity_offsets_witness :
    parseLjsonV2 ljsonV2Doc = Except.ok ljsonV2Res ∧
    ljsonV2Res.edges = ljsonV2Doc.landmarks.connectivity ∧
    parseLjsonV1 ljsonV1Doc = Except.ok ljsonV1Res ∧
    ljsonV1Res.edges = some (v1ExpectedEdges ljsonV1Doc.groups) := by
  have h2 : parseLjsonV2 ljsonV2Doc = Except.ok ljsonV2Res := by
    with_unfolding_all decide
  have h1 : parseLjsonV1 ljsonV1Doc = Except.ok ljsonV1Res := by
    with_unfolding_all decide
  exact ⟨h2, ljson_connectivity_offsets.1 ljsonV2Doc ljsonV2Res h2, h1,
    ljson_connectivity_offsets.2 ljsonV1Doc ljsonV1Res h1⟩

/-! ## Claims C6 and C10: PTS parsing -/

theorem emapM_append {α β : Type} {f : α → Except Unit β} :
    ∀ {l1 : List α} {r1 : List β} {l2 : List α} {r2 : List β},
      emapM f l1 = Except.ok r1 → emapM f l2 = Except.ok r2 →
      emapM f (l1 ++ l2) = Except.ok (r1 ++ r2) := by
  intro l1
  induction l1 with
  | nil =>
    intro r1 l2 r2 h1 h2
    simp only [emapM] at h1
    cases h1
    simpa using h2
  | cons a as ih =>
    intro r1 l2 r2 h1 h2
    simp only [emapM] at h1
    cases hfa : f a with
    | error e => simp [hfa] at h1
    | ok b =>
      simp only [hfa] at h1
      cases has : emapM f as with
      | error e => simp [has] at h1
      | ok bs =>
        simp only [has] at h1
        cases h1
        simp only [List.cons_append, emapM, hfa, List.append_eq, ih has h2]

theorem ptsScanToBrace_append {pre : List String} (hpre : pre.all ptsPreLine = true)
    {braceL : String} (hbrace : ptsFirstTok braceL = some "\x7b")
    (rest : List String) :
    ptsScanToBrace (pre ++ braceL :: rest) = Except.ok rest := by
  induction pre with
  | nil =>
    simp only [List.nil_append]
    unfold ptsScanToBrace ptsFirstTok at *
    cases hsp : pySplit braceL with
    | nil => rw [hsp] at hbrace; exact Option.noConfusion hbrace
    | cons t ts =>
      rw [hsp] at hbrace
      have ht : t = "\x7b" := by simpa using hbrace
      simp only [hsp]
      rw [if_pos ht]
  | cons l pre ih =>
    rw [List.all_cons, Bool.and_eq_true] at hpre
    have hl := hpre.1
    unfold ptsPreLine at hl
    simp only [List.cons_append]
    unfold ptsScanToBrace
    cases hsp : pySplit l with
    | nil => rw [hsp] at hl; exact Bool.noConfusion hl
    | cons t ts =>
      rw [hsp] at hl
      simp only [hsp]
      rw [if_neg (by simpa using hl)]
      exact ih hpre.2

theorem ptsCollect_skip {l : String} (hl : ptsFirstTok l = some "\x7d")
    (rest : List String) : ptsCollect (l :: rest) = ptsCollect rest := by
  unfold ptsFirstTok at hl
  cases hsp : pySplit l with
  | nil => rw [hsp] at hl; exact Option.noConfusion hl
  | cons t ts =>
    rw [hsp] at hl
    have ht : t = "\x7d" := by simpa using hl
    simp only [ptsCollect, hsp]
    rw [if_pos ht]

theorem ptsCollect_body :
    ∀ {body : List String} {vals : List (ℚ × ℚ)} {rest : List String}
      {r : List (String × String)},
      body.length = vals.length →
      (body.zip vals).all (fun p => ptsGoodLine p.1 p.2) = true →
      ptsCollect rest = Except.ok r →
      ∃ tps, ptsCollect (body ++ rest) = Except.ok (tps ++ r) ∧
        emapM (fun p => pyFloatE p.1) tps = Except.ok (vals.map Prod.fst) ∧
        emapM (fun p => pyFloatE p.2) tps = Except.ok (vals.map Prod.snd) := by
  intro body
  induction body with
  | nil =>
    intro vals rest r hlen hgood hrest
    have hv : vals = [] := List.length_eq_zero.mp hlen.symm
    subst hv
    exact ⟨[], by simpa using hrest, rfl, rfl⟩
  | cons l body ih =>
    intro vals rest r hlen hgood hrest
    cases vals with
    | nil => simp at hlen
    | cons v vs =>
      rw [List.zip_cons_cons, List.all_cons, Bool.and_eq_true] at hgood
      have hline := hgood.1
      unfold ptsGoodLine at hline
      cases hsp : pySplit l with
      | nil => rw [hsp] at hline; exact Bool.noConfusion hline
      | cons t1 ts =>
        cases ts with
        | nil => rw [hsp] at hline; exact Bool.noConfusion hline
        | cons t2 ts2 =>
          rw [hsp] at hline
          simp only [Bool.and_eq_true, decide_eq_true_eq] at hline
          obtain ⟨⟨hne, hf1⟩, hf2⟩ := hline
          have hlen2 : body.length = vs.length := by simpa using hlen
          rcases ih hlen2 hgood.2 hrest with ⟨tps, htps, hx, hy⟩
          refine ⟨(t1, t2) :: tps, ?_, ?_, ?_⟩
          · simp only [List.cons_append]
            unfold ptsCollect
            simp only [hsp]
            rw [if_neg hne]
            simp only [htps]
          · have h1 : pyFloatE t1 = Except.ok v.1 := by simp [pyFloatE, hf1]
            simp only [emapM, h1, hx, List.map_cons]
          · have h2 : pyFloatE t2 = Except.ok v.2 := by simp [pyFloatE, hf2]
            simp only [emapM, h2, hy, List.map_cons]

/-- C6 (confirmed): a PTS file whose braced block holds `M` coordinate
lines (and ends with its closing brace) parses to exactly `M` points,
each coordinate being the literal file value minus exactly 1; the image
axis policy stores them `[y - 1, x - 1]`. -/
theorem pts_block_points (pre : List String) (braceL : String) (body : List String)
    (closeL : String) (vals : List (ℚ × ℚ))
    (hpre : pre.all ptsPreLine = true)
    (hbrace : ptsFirstTok braceL = some "\x7b")
    (hlen : body.length = vals.length)
    (hbody : (body.zip vals).all (fun p => ptsGoodLine p.1 p.2) = true)
    (hclose : ptsFirstTok closeL = some "\x7d") :
    ptsParseLines imageBuildPoints (pre ++ braceL :: (body ++ [closeL])) =
      Except.ok (vals.map (fun v => [v.2 - 1, v.1 - 1])) ∧
    (vals.map (fun v => [v.2 - 1, v.1 - 1])).length = body.length := by
  have hscan := ptsScanToBrace_append hpre hbrace (body ++ [closeL])
  have hclose0 : ptsCollect [closeL] = Except.ok [] := by
    rw [ptsCollect_skip hclose]
    rfl
  rcases ptsCollect_body hlen hbody hclose0 with ⟨tps, htps, hx, hy⟩
  constructor
  · unfold ptsParseLines
    simp only [hscan, htps, List.append_nil, hx, hy]
    congr 1
    unfold imageBuildPoints
    rw [List.map_map, List.map_map, List.zipWith_map, List.zipWith_same]
    apply List.map_congr_left
    intro v _
    rfl
  · simp [hlen]

/-- C10 (confirmed): the PTS record loop never breaks at the closing
brace: lines after the `closeL` line whose first token is not a closing
brace are parsed as additional coordinate pairs, so the result holds the
points of the block and of the trailing lines. -/
theorem pts_reads_past_close (pre : List String) (braceL : String)
    (body : List String) (closeL : String) (tail : List String)
    (vals tvals : List (ℚ × ℚ))
    (hpre : pre.all ptsPreLine = true)
    (hbrace : ptsFirstTok braceL = some "\x7b")
    (hlen : body.length = vals.length)
    (hbody : (body.zip vals).all (fun p => ptsGoodLine p.1 p.2) = true)
    (hclose : ptsFirstTok closeL = some "\x7d")
    (hlen2 : tail.length = tvals.length)
    (htail : (tail.zip tvals).all (fun p => ptsGoodLine p.1 p.2) = true) :
    ptsParseLines imageBuildPoints (pre ++ braceL :: (body ++ closeL :: tail)) =
      Except.ok ((vals ++ tvals).map (fun v => [v.2 - 1, v.1 - 1])) ∧
    ((vals ++ tvals).map (fun v => [v.2 - 1, v.1 - 1])).length =
      body.length + tail.length := by
  have hscan := ptsScanToBrace_append hpre hbrace (body ++ closeL :: tail)
  rcases ptsCollect_body hlen2 htail (show ptsCollect [] = Except.ok [] from rfl)
    with ⟨tps2, htps2, hx2, hy2⟩
  rw [List.append_nil, List.append_nil] at htps2
  have hcoll : ptsCollect (closeL :: tail) = Except.ok tps2 := by
    rw [ptsCollect_skip hclose]
    exact htps2
  rcases ptsCollect_body hlen hbody hcoll with ⟨tps, htps, hx, hy⟩
  constructor
  · unfold ptsParseLines
    simp only [hscan, htps, emapM_append hx hx2, emapM_append hy hy2]
    rw [← List.map_append, ← List.map_append]
    congr 1
    unfold imageBuildPoints
    rw [List.map_map, List.map_map, List.zipWith_map, List.zipWith_same]
    apply List.map_congr_left
    intro v _
    rfl
  · simp [hlen, hlen2]

/-- C6 witness at a concrete two-point PTS file. -/
theorem pts_block_points_witness :
    ptsParseLines imageBuildPoints
        (["version: 1"] ++ "\x7b" :: (["3 5", "10 20"] ++ ["\x7d"])) =
      Except.ok (([(3, 5), (10, 20)] : List (ℚ × ℚ)).map
        (fun v : ℚ × ℚ => [v.2 - 1, v.1 - 1])) ∧
    (([(3, 5), (10, 20)] : List (ℚ × ℚ)).map
      (fun v : ℚ × ℚ => [v.2 - 1, v.1 - 1])).length =
      (["3 5", "10 20"] : List String).length :=
  pts_block_points ["version: 1"] "\x7b" ["3 5", "10 20"] "\x7d"
    [(3, 5), (10, 20)]
    (by with_unfolding_all decide) (by with_unfolding_all decide) (by decide)
    (by with_unfolding_all decide) (by with_unfolding_all decide)

/-- C10 witness: one line of trailing content after the closing brace is
parsed as an extra point. -/
theorem pts_reads_past_close_witness :
    ptsParseLines imageBuildPoints
        (([] : List String) ++ "\x7b" :: (["1 1"] ++ "\x7d" :: ["2 2"])) =
      Except.ok ((([(1, 1)] : List (ℚ × ℚ)) ++ [(2, 2)]).map
        (fun v : ℚ × ℚ => [v.2 - 1, v.1 - 1])) ∧
    ((([(1, 1)] : List (ℚ × ℚ)) ++ [(2, 2)]).map
      (fun v : ℚ × ℚ => [v.2 - 1, v.1 - 1])).length =
      (["1 1"] : List String).length + (["2 2"] : List String).length :=
  pts_reads_past_close [] "\x7b" ["1 1"] "\x7d" ["2 2"] [(1, 1)] [(2, 2)]
    (by decide) (by with_unfolding_all decide) (by decide)
    (by with_unfolding_all decide) (by with_unfolding_all decide) (by decide)
    (by with_unfolding_all decide)
